import Mathlib

/-!
Verification of core properties of the steamdeck-mate voice assistant.

Each Python function relevant to the claims is shallowly embedded as an
executable Lean definition, translated from the source:

* `mate/services/llm/prompt_manager_interface.py` — `RemoveOldestStrategy`
* `mate/services/llm/prompt_manager_llama.py` — `LlamaPromptManager.reduce_history`
* `mate/services/stt/stt_whisper_remote.py` — the delta loop of `transcribe_stream`
* `mate/services/__init__.py` — `ServiceDiscovery.get_best_service`
* `mate/audio/soundcard_pyaudio.py` — `_playback_callback`, `play_audio`,
  `_prepare_audio_for_playback`
* `mate/steamdeck_mate.py` — the streaming part of `ask_llm`
* `mate/utils.py` — `is_sane_input_german`, `clean_str_from_markdown`
* `mate/services/tts/tts_interface.py` — `TTSInterface.speak`

External dependencies (the tiktoken tokenizer, nltk tokenizers, the scipy
resampler) are modelled as function parameters; external data (the nltk
Swadesh German vocabulary) is modelled from the spec where a concrete
instance is needed.
-/

/- ------------------------------------------------------------------ -/
/- Prompt manager: history entries and token-bounded reduction         -/
/- (prompt_manager_interface.py, prompt_manager_llama.py)              -/
/- ------------------------------------------------------------------ -/

/-- A chat-history entry, `{"role": ..., "content": ...}` in the Python code. -/
structure HistoryEntry where
  role : String
  content : String
deriving DecidableEq, Repr

/-- Models `RemoveOldestStrategy.calculate_token_count`: sum of `tokenize_fn(content)`
over all entries.  The tokenizer (tiktoken `cl100k_base` in the code) is an
external dependency and is passed as the function `tok`. -/
def calculateTokenCount (tok : String → Nat) (history : List HistoryEntry) : Nat :=
  (history.map (fun e => tok e.content)).sum

/-- Models `RemoveOldestStrategy.reduce`: `while count > limit and history: history.pop(0)`.
Note that it pops index 0 unconditionally, including the leading system entry.
(The loop is rendered as structural recursion: an empty history ends the loop,
and otherwise one iteration pops the front and continues.) -/
def removeOldestReduce (tok : String → Nat) (limit : Nat) :
    List HistoryEntry → List HistoryEntry
  | [] => []
  | e :: rest =>
      if calculateTokenCount tok (e :: rest) > limit then
        removeOldestReduce tok limit rest
      else e :: rest

/-- Models `LlamaPromptManager.reduce_history`: reduce only when the current count
exceeds the limit.  `count_history_tokens` in the source is the same sum of
`count_tokens` over entry contents as `calculate_token_count`. -/
def reduceHistory (tok : String → Nat) (history : List HistoryEntry) (limit : Nat) :
    List HistoryEntry :=
  if calculateTokenCount tok history > limit then
    removeOldestReduce tok limit history
  else history

/- ------------------------------------------------------------------ -/
/- Sound card: playback state, play_audio                              -/
/- (soundcard_pyaudio.py)                                              -/
/- ------------------------------------------------------------------ -/

/-- The playback-side state of `SoundCard`: the `stop_signal_playback` event,
the post-item silence budget `leftover_silence_frames`, the
`current_buffer`/`current_pos` pair, and the FIFO `playback_queue` whose items
are `(sample_rate, samples)` pairs.  Samples are 16-bit signed integers,
modelled as `Int`; the byte-pair packing of int16 frames (`bytes_per_frame = 2`)
is represented at sample granularity. -/
structure PlaybackState where
  stopSignal : Bool
  leftoverSilenceFrames : Nat
  currentBuffer : List Int
  currentPos : Nat
  playbackQueue : List (Nat × List Int)
deriving DecidableEq, Repr

/-- Audio accepted by `play_audio`: integer samples are used verbatim;
floating-point samples in [-1, 1] are scaled to int16 with clipping.  (The
WAV-blob path in the source decodes the container with the external `wave`
module into a float array and then follows the float path.)  Python floats
are modelled as rationals. -/
inductive PlaybackAudio where
  | intSamples (samples : List Int)
  | floatSamples (samples : List ℚ)
deriving DecidableEq, Repr

/-- Truncation toward zero, as `numpy.astype(np.int16)` applies to a float
value already clipped into int16 range. -/
def ratTruncToInt (q : ℚ) : Int :=
  if 0 ≤ q then ⌊q⌋ else ⌈q⌉

/-- The sample conversion in `play_audio`:
`(audio_array * 32767).clip(-32768, 32767).astype(np.int16)` for float input,
identity for int16 input. -/
def convertPlayAudioInput : PlaybackAudio → List Int
  | .intSamples samples => samples
  | .floatSamples samples =>
      samples.map (fun x => ratTruncToInt (max (-32768 : ℚ) (min 32767 (x * 32767))))

/-- Models `SoundCard.play_audio`: convert the input, clear `stop_signal_playback`
if it was set, and enqueue `(sample_rate, samples)` at the tail of the
playback queue. -/
def playAudio (s : PlaybackState) (sampleRate : Nat) (input : PlaybackAudio) :
    PlaybackState :=
  let s1 := if s.stopSignal then { s with stopSignal := false } else s
  { s1 with playbackQueue := s1.playbackQueue ++ [(sampleRate, convertPlayAudioInput input)] }

/- ------------------------------------------------------------------ -/
/- TTS interface: speak                                                -/
/- (tts_interface.py)                                                  -/
/- ------------------------------------------------------------------ -/

/-- The queue-facing state of `TTSInterface`: the `_sentence_queue` and the
`stop_signal` event. -/
structure TTSState where
  sentenceQueue : List String
  stopSignal : Bool
deriving DecidableEq, Repr

/-- Models `TTSInterface.speak`: enqueue the sentence only when `stop_signal` is not
set; otherwise the call does nothing. -/
def ttsSpeak (s : TTSState) (sentence : String) : TTSState :=
  if s.stopSignal then s
  else { s with sentenceQueue := s.sentenceQueue ++ [sentence] }

/- ------------------------------------------------------------------ -/
/- STT: the delta-yielding loop of transcribe_stream                   -/
/- (stt_whisper_remote.py)                                             -/
/- ------------------------------------------------------------------ -/

/-- Python `t[n:]`: drop the first `n` characters of a string (Python string
slicing is by code points, modelled on the underlying character list). -/
def strDropChars (s : String) (n : Nat) : String :=
  String.mk (s.data.drop n)

/-- Concatenation of a list of strings (the concatenation of all yielded
deltas). -/
def concatStrings (l : List String) : String :=
  l.foldr (· ++ ·) ""

/-- The consumer loop of `STTWhisperRemote.transcribe_stream`: for each
cumulative transcript `t` taken from the results queue it yields
`t_diff = t[len(old_full_text):]` and sets `old_full_text = t`.  `old` is the
`old_full_text` accumulator (initially the empty string). -/
def sttDeltaLoop (old : String) : List String → List String
  | [] => []
  | t :: rest => strDropChars t old.length :: sttDeltaLoop t rest

/-- The deltas yielded by `transcribe_stream` for the sequence `ts` of
cumulative transcripts enqueued by the receiver, in arrival order. -/
def sttDeltas (ts : List String) : List String :=
  sttDeltaLoop "" ts

/- ------------------------------------------------------------------ -/
/- Service discovery: get_best_service                                 -/
/- (services/__init__.py)                                              -/
/- ------------------------------------------------------------------ -/

/-- One entry of `ServiceDiscovery.services` joined with the fields of its
`BaseService` instance: `name`, `service_type`, `priority`, the probed
`available` flag, and whether the `instance` slot is non-`None`.  The
services map preserves insertion (registration) order, so the map is
modelled as a list in that order. -/
structure ServiceRecord where
  name : String
  serviceType : String
  priority : Int
  available : Bool
  hasInstance : Bool
deriving DecidableEq, Repr

/-- The `candidates` list comprehension of `get_best_service`: records whose
instance exists, whose `service_type` matches, and which are available, in
map (= registration) order. -/
def candidateServices (services : List ServiceRecord) (serviceType : String) :
    List ServiceRecord :=
  services.filter (fun r => r.hasInstance && r.serviceType == serviceType && r.available)

/-- One insertion step of a stable descending sort by `priority`: the element
`r`, which precedes the already-sorted `l` in the original order, is placed
before the first element whose priority is not above `r`'s.  Python's
`list.sort(key=..., reverse=True)` is a stable sort, which this insertion
sort reproduces exactly. -/
def insertByPriorityDesc (r : ServiceRecord) : List ServiceRecord → List ServiceRecord
  | [] => [r]
  | x :: xs =>
      if r.priority ≥ x.priority then r :: x :: xs
      else x :: insertByPriorityDesc r xs

/-- Models `candidates.sort(key=lambda x: x.priority, reverse=True)`: stable sort by
descending priority. -/
def sortByPriorityDesc : List ServiceRecord → List ServiceRecord
  | [] => []
  | x :: xs => insertByPriorityDesc x (sortByPriorityDesc xs)

/-- Models `ServiceDiscovery.get_best_service`: filter the candidates of the
requested type, and if any exist return the head of the descending stable
sort (`candidates[0]`); the `sys.exit` path taken when no candidate exists is
modelled as `none`. -/
def getBestService (services : List ServiceRecord) (serviceType : String) :
    Option ServiceRecord :=
  let candidates := candidateServices services serviceType
  if candidates.isEmpty then none
  else (sortByPriorityDesc candidates).head?

/-- Specification helper: the first element of a list attaining the maximum
priority (earliest-registered maximum). -/
def firstMaxPriority : List ServiceRecord → Option ServiceRecord
  | [] => none
  | x :: xs =>
      match firstMaxPriority xs with
      | none => some x
      | some y => if y.priority > x.priority then some y else some x

/- ------------------------------------------------------------------ -/
/- Text utilities: clean_str_from_markdown                             -/
/- (utils.py)                                                          -/
/- ------------------------------------------------------------------ -/

/-- ASCII digit, the `\d` class of the Python regexes. -/
def isDigitChar (c : Char) : Bool :=
  48 ≤ c.toNat && c.toNat ≤ 57

/-- The `\s` class of the Python regexes (ASCII whitespace: space, tab,
newline, carriage return, vertical tab, form feed). -/
def isPySpace (c : Char) : Bool :=
  c.toNat = 32 || c.toNat = 9 || c.toNat = 10 || c.toNat = 13 ||
    c.toNat = 11 || c.toNat = 12

/-- Membership in the character class `[?:!.,]`. -/
def isMarkChar (c : Char) : Bool :=
  c == '?' || c == ':' || c == '!' || c == '.' || c == ','

/-- Models `text.replace('\n', '. ')`. -/
def replaceNewlines : List Char → List Char
  | [] => []
  | c :: rest =>
      if c = '\n' then '.' :: ' ' :: replaceNewlines rest
      else c :: replaceNewlines rest

/-- Models `re.sub(r'([?:!.,])\.', r'\1', buffer)`: one left-to-right,
non-overlapping pass deleting a `'.'` that immediately follows one of
`? : ! . ,` (the class character is kept). -/
def removeDotAfterMark : List Char → List Char
  | [] => []
  | [a] => [a]
  | a :: b :: rest =>
      if isMarkChar a && b == '.' then a :: removeDotAfterMark rest
      else a :: removeDotAfterMark (b :: rest)

/-- The negative lookbehind `(?<!\d)`: fails when the previous character of
the scanned string is a digit. -/
def prevIsDigit : Option Char → Bool
  | none => false
  | some c => isDigitChar c

/-- The negative lookahead `(?![\d\s])`: fails when the next character
exists and is a digit or whitespace. -/
def lookaheadBlocked : List Char → Bool
  | [] => false
  | c :: _ => isDigitChar c || isPySpace c

/-- Models `re.sub(r"(?<!\d)\.(?![\d\s])", ". ", buffer)`: replace each `'.'` that
is not preceded by a digit and not followed by a digit or whitespace with
`". "`.  `prev` is the character of the scanned string before the current
position (lookbehind and lookahead inspect the original string; the
replacement is not rescanned). -/
def insertSpaceAfterDot (prev : Option Char) : List Char → List Char
  | [] => []
  | c :: rest =>
      if c == '.' && !prevIsDigit prev && !lookaheadBlocked rest then
        '.' :: ' ' :: insertSpaceAfterDot (some '.') rest
      else c :: insertSpaceAfterDot (some c) rest

/-- Models `re.sub(r'\.\d+\.', '.', buffer)` as a left-to-right scanner.  The state
`some ds` means a `'.'` followed by the digit run `ds` has been read but not
yet emitted (a potential `.digits.` match); `none` means no pending match.
On `.D+.` the whole match is replaced by a single `'.'` and scanning resumes
after the match, exactly as `re.sub` does. -/
def enumScan : Option (List Char) → List Char → List Char
  | none, [] => []
  | none, c :: rest =>
      if c = '.' then enumScan (some []) rest
      else c :: enumScan none rest
  | some ds, [] => '.' :: ds
  | some ds, c :: rest =>
      if isDigitChar c then enumScan (some (ds ++ [c])) rest
      else if c = '.' then
        if ds.isEmpty then '.' :: enumScan (some []) rest
        else '.' :: enumScan none rest
      else ('.' :: ds) ++ c :: enumScan none rest

/-- Models `re.sub(r'\.\d+\.', '.', buffer)`: remove enumeration fragments. -/
def removeEnumFragments (l : List Char) : List Char :=
  enumScan none l

/-- Models `clean_str_from_markdown`: replace newlines by `". "`, delete a period
directly after a punctuation mark, insert a space after sentence-ending
periods, and remove `.digits.` enumeration fragments. -/
def cleanStrFromMarkdown (s : String) : String :=
  String.mk
    (removeEnumFragments
      (insertSpaceAfterDot none
        (removeDotAfterMark
          (replaceNewlines s.data))))

/- ------------------------------------------------------------------ -/
/- Sound card: _prepare_audio_for_playback and _playback_callback      -/
/- (soundcard_pyaudio.py)                                              -/
/- ------------------------------------------------------------------ -/

/-- Models `SoundCard._prepare_audio_for_playback`: when the item's rate differs
from the engine rate, resample to
`new_length = int(len(audio_array) * (out_sample_rate / in_sample_rate))` —
`int()` truncates toward zero; Python evaluates the product in double
precision, which in exact arithmetic is the floor, i.e. Nat division here.
The resampler itself (`scipy.signal.resample`, which returns exactly the
requested number of samples) is external and passed as `resampleFn`, whose
output stands for the resampled data after the final int16 conversion. -/
def prepareAudioForPlayback (resampleFn : List Int → Nat → List Int)
    (inRate outRate : Nat) (samples : List Int) : List Int :=
  if inRate ≠ outRate then
    resampleFn samples (samples.length * outRate / inRate)
  else samples

/-- The target length the spec claims for resampling:
`round(source_length · engine_rate / source_rate)`. -/
def specRoundLength (sourceLen engineRate sourceRate : Nat) : Int :=
  round (((sourceLen * engineRate : Nat) : ℚ) / (sourceRate : ℚ))

/-- The `while len(output_data) < output_bytes_needed` loop of
`SoundCard._playback_callback`, at sample granularity; `needed` is the
number of samples still to produce and `prep` is
`_prepare_audio_for_playback` applied to a dequeued item.  The loop steps,
in the source's order: (1) emit pending leftover silence; (2) copy from the
current buffer, and on exhaustion set one second (`rate` frames) of leftover
silence; (3) otherwise dequeue and prepare the next item, or pad the rest
with silence when the queue is empty.  The loop is rendered as structural
recursion on an iteration budget `fuel`. -/
def fillLoopF (rate : Nat) (prep : Nat → List Int → List Int) :
    Nat → PlaybackState → Nat → List Int × PlaybackState
  | 0, s, needed => (List.replicate needed 0, s)
  | fuel + 1, s, needed =>
      if needed = 0 then ([], s)
      else if 0 < s.leftoverSilenceFrames then
        let w := min s.leftoverSilenceFrames needed
        let s1 := { s with leftoverSilenceFrames := s.leftoverSilenceFrames - w }
        let rest := fillLoopF rate prep fuel s1 (needed - w)
        (List.replicate w 0 ++ rest.1, rest.2)
      else if s.currentBuffer ≠ [] ∧ s.currentPos < s.currentBuffer.length then
        let avail := s.currentBuffer.length - s.currentPos
        let w := min avail needed
        let copied := (s.currentBuffer.drop s.currentPos).take w
        let newPos := s.currentPos + w
        let s1 :=
          if s.currentBuffer.length ≤ newPos then
            { s with leftoverSilenceFrames := rate, currentBuffer := [], currentPos := 0 }
          else { s with currentPos := newPos }
        let rest := fillLoopF rate prep fuel s1 (needed - w)
        (copied ++ rest.1, rest.2)
      else
        match s.playbackQueue with
        | [] => (List.replicate needed 0, s)
        | (sr, arr) :: q =>
            fillLoopF rate prep fuel
              { s with currentBuffer := prep sr arr, currentPos := 0, playbackQueue := q }
              needed

/-- The fill loop with its fuel bound supplied: every iteration either
produces at least one output sample or dequeues one item, so
`needed + queue length + 1` iterations always suffice. -/
def fillLoop (rate : Nat) (prep : Nat → List Int → List Int)
    (s : PlaybackState) (needed : Nat) : List Int × PlaybackState :=
  fillLoopF rate prep (needed + s.playbackQueue.length + 1) s needed

/-- Models `SoundCard._playback_callback` for one device invocation requesting
`frameCount` frames: emit silence when the stop signal is set, otherwise run
the fill loop. -/
def playbackCallback (rate : Nat) (prep : Nat → List Int → List Int)
    (s : PlaybackState) (frameCount : Nat) : List Int × PlaybackState :=
  if s.stopSignal then (List.replicate frameCount 0, s)
  else fillLoop rate prep s frameCount

/-- Models `k` consecutive invocations of the playback callback, each requesting
`frameCount` frames, with the produced samples concatenated. -/
def runPlaybackCallbacks (rate : Nat) (prep : Nat → List Int → List Int)
    (frameCount : Nat) : PlaybackState → Nat → List Int × PlaybackState
  | s, 0 => ([], s)
  | s, k + 1 =>
      let out := playbackCallback rate prep s frameCount
      let rest := runPlaybackCallbacks rate prep frameCount out.2 k
      (out.1 ++ rest.1, rest.2)

/-- The samples a playback state still owes before it runs dry: the pending
leftover silence, the unplayed part of the current buffer followed by its
one second of inter-item silence, and each queued item (prepared) followed
by its one second of silence. -/
def pendingStream (rate : Nat) (prep : Nat → List Int → List Int)
    (s : PlaybackState) : List Int :=
  List.replicate s.leftoverSilenceFrames 0 ++
    (if s.currentBuffer ≠ [] ∧ s.currentPos < s.currentBuffer.length then
      s.currentBuffer.drop s.currentPos ++ List.replicate rate 0
    else []) ++
    (s.playbackQueue.map (fun it => prep it.1 it.2 ++ List.replicate rate 0)).flatten

/- ------------------------------------------------------------------ -/
/- Text utilities: is_sane_input_german                                -/
/- (utils.py)                                                          -/
/- ------------------------------------------------------------------ -/

/-- Models `str.lower()` restricted to the alphabet relevant to the sanity check:
ASCII letters and the German umlauts (`Ä Ö Ü` are the only non-ASCII
uppercase letters the check can meet). -/
def pythonLowerChar (c : Char) : Char :=
  if 65 ≤ c.toNat && c.toNat ≤ 90 then Char.ofNat (c.toNat + 32)
  else if c = 'Ä' then 'ä'
  else if c = 'Ö' then 'ö'
  else if c = 'Ü' then 'ü'
  else c

/-- Models `token.lower()`. -/
def pythonLower (s : String) : String :=
  String.mk (s.data.map pythonLowerChar)

/-- Membership in Python's `string.punctuation`
(ASCII 33–47, 58–64, 91–96, 123–126). -/
def isPunctChar (c : Char) : Bool :=
  (33 ≤ c.toNat && c.toNat ≤ 47) || (58 ≤ c.toNat && c.toNat ≤ 64) ||
    (91 ≤ c.toNat && c.toNat ≤ 96) || (123 ≤ c.toNat && c.toNat ≤ 126)

/-- Models `.strip(string.punctuation)`: remove leading and trailing punctuation
characters. -/
def stripPunct (s : String) : String :=
  String.mk (((s.data.dropWhile isPunctChar).reverse.dropWhile isPunctChar).reverse)

/-- Models `word = token.lower().strip(string.punctuation)`. -/
def normalizeToken (t : String) : String :=
  stripPunct (pythonLower t)

/-- Models `str.isalpha()` over the German-relevant alphabet (ASCII letters and
`ä ö ü ß Ä Ö Ü`); like Python's, it is false on the empty string. -/
def isGermanAlphaChar (c : Char) : Bool :=
  (97 ≤ c.toNat && c.toNat ≤ 122) || (65 ≤ c.toNat && c.toNat ≤ 90) ||
    c == 'ä' || c == 'ö' || c == 'ü' || c == 'ß' || c == 'Ä' || c == 'Ö' || c == 'Ü'

/-- Models `word.isalpha()`. -/
def isAlphaWord (w : String) : Bool :=
  !w.data.isEmpty && w.data.all isGermanAlphaChar

/-- The in-code `common_german_words` set of `is_sane_input_german`,
transcribed entry for entry (duplicates are irrelevant for membership). -/
def commonGermanWords : List String :=
  ["wie", "was", "wer", "wo", "wann", "warum", "welche", "welcher", "welches",
   "mir", "dir", "uns", "euch", "ihnen", "ihm", "ihr", "du", "ich", "er", "sie",
   "es", "wir", "ihr", "sie",
   "ein", "eine", "einen", "einem", "einer", "eines", "der", "die", "das",
   "den", "dem", "des",
   "ist", "sind", "war", "waren", "wird", "werden", "würde", "würden", "kann",
   "können", "könnte", "könnten",
   "hat", "haben", "hatte", "hatten", "geht", "gehen", "ging", "gingen",
   "über", "unter", "vor", "nach", "bei", "mit", "ohne", "für", "gegen", "um",
   "zu", "aus", "von", "auf",
   "erzähle", "erzähl", "sage", "sag", "zeige", "zeig", "mache", "mach", "gib",
   "gebe",
   "bitte", "danke", "ja", "nein", "vielleicht", "heute", "morgen", "gestern",
   "uhr", "zeit", "tag", "woche", "monat", "jahr",
   "schön", "gut", "schlecht", "groß", "klein", "alt", "neu", "kurz", "lang",
   "witz", "gedicht", "geschichte", "lied", "musik", "film", "buch",
   "mal", "einmal", "zweimal", "noch", "schon", "jetzt", "später", "früher",
   "hallo", "tschüss", "wiedersehen", "morgen", "abend", "mittag",
   "einen", "eine", "einem", "eines", "einer",
   "mein", "dein", "sein", "ihr", "unser", "euer",
   "meine", "deine", "seine", "ihre", "unsere", "eure",
   "meinen", "deinen", "seinen", "ihren", "unseren", "euren",
   "meinem", "deinem", "seinem", "ihrem", "unserem", "eurem",
   "meiner", "deiner", "seiner", "ihrer", "unserer", "eurer",
   "meines", "deines", "seines", "ihres", "unseres", "eures"]

/-- The `german_prefixes` set of the word-formation heuristic. -/
def germanWordStarts : List String :=
  ["ge", "be", "ver", "er", "ent", "zer", "ab", "an", "auf", "aus", "ein",
   "vor", "zu", "über", "unter", "um"]

/-- The `german_suffixes` set of the word-formation heuristic. -/
def germanWordEnds : List String :=
  ["en", "st", "t", "e", "et", "est", "te", "ten", "er", "ung", "keit",
   "heit", "lich", "bar", "ig", "isch", "sam"]

/-- Models `word.startswith(p)`: the characters of `p` start the characters of `w`. -/
def listStarts : List Char → List Char → Bool
  | [], _ => true
  | _ :: _, [] => false
  | p :: ps, c :: cs => p == c && listStarts ps cs

/-- Models `any(word.startswith(p) for p in german_prefixes)`. -/
def hasGermanWordStart (w : String) : Bool :=
  germanWordStarts.any (fun p => listStarts p.data w.data)

/-- Models `any(word.endswith(p) for p in german_suffixes)`. -/
def hasGermanWordEnd (w : String) : Bool :=
  germanWordEnds.any (fun p => listStarts p.data.reverse w.data.reverse)

/-- Models `"ä" in word or "ö" in word or "ü" in word or "ß" in word`. -/
def hasUmlaut (w : String) : Bool :=
  w.data.any (fun c => c == 'ä' || c == 'ö' || c == 'ü' || c == 'ß')

/-- The credit a counted word contributes to `valid_word_count`: 1.0 when in
the Swadesh vocabulary (`gw`) or the common-word list, else 0.9 / 0.7 / 0.5
for both / suffix-only / prefix-only German word formation, else 0.8 when it
contains a German-specific character, else 0.  Python float literals are
modelled as the rationals they denote. -/
def creditOf (gw : List String) (w : String) : ℚ :=
  if gw.contains w then 1
  else if commonGermanWords.contains w then 1
  else if hasGermanWordStart w && hasGermanWordEnd w then 9/10
  else if hasGermanWordEnd w then 7/10
  else if hasGermanWordStart w then 1/2
  else if hasUmlaut w then 4/5
  else 0

/-- The token loop of `is_sane_input_german`, computing
`(total_word_count, valid_word_count)`: a token is skipped unless its
normalized word is alphabetic and either has length ≥ 2 or is one of
`a i o u`; a counted word contributes 1 to the total and its credit to the
valid count. -/
def saneCounts (gw : List String) : List String → Nat × ℚ
  | [] => (0, 0)
  | tk :: rest =>
      let w := normalizeToken tk
      let tc := saneCounts gw rest
      if isAlphaWord w = false then tc
      else if w.length ≤ 1 ∧ ["a", "i", "o", "u"].contains w = false then tc
      else (tc.1 + 1, tc.2 + creditOf gw w)

/-- Models `is_sane_input_german` from the token list produced by the external
`nltk.word_tokenize` (an empty token list covers the function's
empty-input early returns): sane iff `valid/total ≥ threshold`, the
threshold being relaxed to 0.10 when `total_word_count ≤ 5`. -/
def isSaneInputGerman (gw : List String) (tokens : List String) (threshold : ℚ) : Bool :=
  if tokens.isEmpty then false
  else
    let tc := saneCounts gw tokens
    if tc.1 = 0 then false
    else
      let adjusted := if tc.1 ≤ 5 then (1 : ℚ) / 10 else threshold
      decide (adjusted ≤ tc.2 / (tc.1 : ℚ))

/-- The counted-token predicate exactly as the claim states it: an
alphabetic token of length ≥ 2. -/
def claimCountedWord (w : String) : Bool :=
  isAlphaWord w && decide (2 ≤ w.length)

/-- The counted-token predicate as the code implements it: additionally the
single-letter words `a i o u` are counted. -/
def codeCountedWord (w : String) : Bool :=
  isAlphaWord w && (decide (2 ≤ w.length) || ["a", "i", "o", "u"].contains w)

/-- The normalized words the claim credits. -/
def claimSaneWords (tokens : List String) : List String :=
  (tokens.map normalizeToken).filter claimCountedWord

/-- The normalized words the code credits. -/
def codeSaneWords (tokens : List String) : List String :=
  (tokens.map normalizeToken).filter codeCountedWord

/-- The sanity check as the claim describes it: credit only alphabetic
tokens of length ≥ 2, divide by their number, compare against the
threshold (0.10 when at most 5 tokens are counted). -/
def isSaneSpecClaim (gw : List String) (tokens : List String) (threshold : ℚ) : Bool :=
  let ws := claimSaneWords tokens
  if ws.isEmpty then false
  else
    let adjusted := if ws.length ≤ 5 then (1 : ℚ) / 10 else threshold
    decide (adjusted ≤ (ws.map (creditOf gw)).sum / (ws.length : ℚ))

/-- The amended sanity-check description: as the claim, but the
single-letter tokens `a i o u` are also credited and counted. -/
def isSaneSpecAmended (gw : List String) (tokens : List String) (threshold : ℚ) : Bool :=
  let ws := codeSaneWords tokens
  if ws.isEmpty then false
  else
    let adjusted := if ws.length ≤ 5 then (1 : ℚ) / 10 else threshold
    decide (adjusted ≤ (ws.map (creditOf gw)).sum / (ws.length : ℚ))

/-- Modelled from the spec: the bundled Swadesh-style German vocabulary
(`nltk.corpus.swadesh.words('de')`, lowercased), which is external data not
present in the repository.  The entries are the German Swadesh-list words;
the list contains no single-letter word. -/
def germanWordsModel : List String :=
  ["ich", "du", "er", "wir", "ihr", "sie", "dies", "das", "hier", "dort",
   "wer", "was", "wo", "wann", "wie", "nicht", "alle", "viele", "einige",
   "wenige", "andere", "eins", "zwei", "drei", "vier", "fünf", "groß", "lang",
   "breit", "dick", "schwer", "klein", "kurz", "eng", "dünn", "frau", "mann",
   "mensch", "kind", "mutter", "vater", "tier", "fisch", "vogel", "hund",
   "baum", "wald", "blatt", "wurzel", "blume", "gras", "haut", "fleisch",
   "blut", "knochen", "kopf", "ohr", "auge", "nase", "mund", "zahn", "zunge",
   "fuß", "bein", "knie", "hand", "herz", "trinken", "essen", "sehen",
   "hören", "wissen", "denken", "schlafen", "leben", "sterben", "gehen",
   "kommen", "liegen", "sitzen", "stehen", "geben", "sagen", "singen",
   "spielen", "sonne", "mond", "stern", "wasser", "regen", "fluss", "see",
   "meer", "salz", "stein", "sand", "erde", "wolke", "himmel", "wind",
   "schnee", "eis", "rauch", "feuer", "asche", "brennen", "weg", "berg",
   "rot", "grün", "gelb", "weiß", "schwarz", "nacht", "tag", "jahr", "warm",
   "kalt", "voll", "neu", "alt", "gut", "schlecht", "nass", "trocken",
   "richtig", "nah", "weit", "rechts", "links", "in", "mit", "und", "wenn",
   "name"]

/- ------------------------------------------------------------------ -/
/- Orchestrator: the sentence-streaming part of ask_llm                -/
/- (steamdeck_mate.py)                                                 -/
/- ------------------------------------------------------------------ -/

/-- Membership in the character class of `re.sub(r'[*_#`"\']+', '', ...)`:
asterisk, underscore, hash, backquote, double quote, single quote (given by
code point). -/
def isSentenceMdChar (c : Char) : Bool :=
  c.toNat = 42 || c.toNat = 95 || c.toNat = 35 || c.toNat = 96 ||
    c.toNat = 34 || c.toNat = 39

/-- Models `re.sub(r'[*_#`"\']+', '', sentence).strip()`: delete every occurrence of
the markdown characters, then strip whitespace from both ends (`.strip()`,
modelled over the ASCII whitespace class). -/
def stripSentenceChars (s : String) : String :=
  let l := s.data.filter (fun c => !isSentenceMdChar c)
  String.mk (((l.dropWhile isPySpace).reverse.dropWhile isPySpace).reverse)

/-- The character class `[A-Za-z0-9äöüÄÖÜß]` of the "has real chars" check. -/
def isRealChar (c : Char) : Bool :=
  (65 ≤ c.toNat && c.toNat ≤ 90) || (97 ≤ c.toNat && c.toNat ≤ 122) ||
    isDigitChar c ||
    c == 'ä' || c == 'ö' || c == 'ü' || c == 'Ä' || c == 'Ö' || c == 'Ü' || c == 'ß'

/-- Models `re.search(r'[A-Za-z0-9äöüÄÖÜß]', sentence) is not None`. -/
def containsRealChar (s : String) : Bool :=
  s.data.any isRealChar

/-- The loop state of `ask_llm` with `stream_sentences=True`: the accumulated
`response`, the `sentence_buffer`, and the sentences yielded so far. -/
structure AskLlmState where
  response : String
  buffer : String
  yields : List String
deriving DecidableEq, Repr

/-- The inner `for sentence in sentences[:-1]` loop: strip markdown residue
from each complete sentence and keep only those containing a real
character. -/
def processTokenizedSentences (sentences : List String) : List String :=
  (sentences.dropLast.map stripSentenceChars).filter containsRealChar

/-- One chunk iteration of `ask_llm`: clean the chunk from markdown, append
it to `response` and `sentence_buffer`, tokenize the buffer into sentences
with the external `nltk.sent_tokenize` (the parameter `tok`), yield the
filtered complete sentences, and keep `sentences[-1]` as the new buffer.
`sentences[-1]` raises `IndexError` when the tokenizer returns no sentences,
modelled as `none`. -/
def askLlmStep (tok : String → List String) (st : AskLlmState) (chunk : String) :
    Option AskLlmState :=
  let c := cleanStrFromMarkdown chunk
  let buffer := st.buffer ++ c
  let sentences := tok buffer
  match sentences.getLast? with
  | none => none
  | some lastSentence =>
      some ⟨st.response ++ c, lastSentence, st.yields ++ processTokenizedSentences sentences⟩

/-- The chunk loop of `ask_llm` over the whole chunk stream. -/
def askLlmRun (tok : String → List String) : AskLlmState → List String → Option AskLlmState
  | st, [] => some st
  | st, chunk :: rest =>
      match askLlmStep tok st chunk with
      | none => none
      | some st1 => askLlmRun tok st1 rest

/-- Models `ask_llm(text, stream_sentences=True)`: run the chunk loop from the empty
state; after the stream ends the remaining `sentence_buffer` is yielded
(unconditionally), and the accumulated response is appended as the single
assistant entry — returned here as the pair (yielded sentences, assistant
entry content). -/
def askLlmStream (tok : String → List String) (chunks : List String) :
    Option (List String × String) :=
  (askLlmRun tok ⟨"", "", []⟩ chunks).map
    (fun st => (st.yields ++ [st.buffer], st.response))

/- ------------------------------------------------------------------ -/
/- Theorems                                                            -/
/- ------------------------------------------------------------------ -/

/-- After `removeOldestReduce` the token count is within the limit. -/
theorem removeOldestReduce_le (tok : String → Nat) (limit : Nat)
    (history : List HistoryEntry) :
    calculateTokenCount tok (removeOldestReduce tok limit history) ≤ limit := by
  induction history with
  | nil =>
      simp [removeOldestReduce, calculateTokenCount]
  | cons e rest ih =>
      rw [removeOldestReduce]
      by_cases h : calculateTokenCount tok (e :: rest) > limit
      · simpa [h] using ih
      · simpa [h] using Nat.le_of_not_lt h

/-- C1 (corrected): `reduce_history(L)` always brings the token count of the
history within `L` (the `RemoveOldestStrategy` recursion stops as soon as the
count is within budget, and the empty history has count 0).  The part of the
original claim asserting that the leading system entry is never removed is
false — the strategy pops index 0 unconditionally; see
`reduceHistory_can_drop_system_entry`. -/
theorem reduceHistory_token_count_le (tok : String → Nat)
    (history : List HistoryEntry) (limit : Nat) :
    calculateTokenCount tok (reduceHistory tok history limit) ≤ limit := by
  rw [reduceHistory]
  by_cases h : calculateTokenCount tok history > limit
  · simpa [h] using removeOldestReduce_le tok limit history
  · simpa [h] using Nat.le_of_not_lt h

/-- C1 counterexample: with tokenizer `String.length`, the history
`[system "ab", user "ccc"]` and the limit 3, the system entry's own count
(2) is within the limit, yet `reduce_history(3)` removes the leading system
entry: the strategy pops index 0 first, after which `[user "ccc"]` (count 3)
is within budget.  This refutes "the reduction strategy never removes the
leading system entry". -/
theorem reduceHistory_can_drop_system_entry :
    String.length "ab" ≤ 3 ∧
      (reduceHistory String.length
          [⟨"system", "ab"⟩, ⟨"user", "ccc"⟩] 3).head? ≠
        some ⟨"system", "ab"⟩ := by
  constructor
  · decide
  · decide

/-- C9 (confirmed): `play_audio` always leaves the playback stop signal
cleared (it clears the signal if `stop_playback` had set it) and appends the
converted item at the tail of the playback queue. -/
theorem playAudio_clears_stop_and_appends (s : PlaybackState) (sampleRate : Nat)
    (input : PlaybackAudio) :
    (playAudio s sampleRate input).stopSignal = false ∧
      (playAudio s sampleRate input).playbackQueue =
        s.playbackQueue ++ [(sampleRate, convertPlayAudioInput input)] := by
  unfold playAudio
  by_cases h : s.stopSignal
  · simp [h]
  · simp [h]

/-- C10 (confirmed): `TTSInterface.speak` discards the sentence (queue
unchanged) when the stop signal is set, and appends it at the tail of the
sentence queue when the stop signal is clear. -/
theorem ttsSpeak_stop_behavior (s : TTSState) (sentence : String) :
    (s.stopSignal = true → ttsSpeak s sentence = s) ∧
      (s.stopSignal = false →
        ttsSpeak s sentence =
          { s with sentenceQueue := s.sentenceQueue ++ [sentence] }) := by
  constructor
  · intro h
    simp [ttsSpeak, h]
  · intro h
    simp [ttsSpeak, h]

/-- Witness for `ttsSpeak_stop_behavior` at a concrete state: a set stop
signal leaves the queue unchanged, and a cleared one appends. -/
theorem ttsSpeak_stop_behavior_witness :
    ttsSpeak ⟨["a"], true⟩ "b" = ⟨["a"], true⟩ ∧
      ttsSpeak ⟨["a"], false⟩ "b" = ⟨["a", "b"], false⟩ := by
  refine ⟨(ttsSpeak_stop_behavior ⟨["a"], true⟩ "b").1 rfl, ?_⟩
  have h := (ttsSpeak_stop_behavior ⟨["a"], false⟩ "b").2 rfl
  simpa using h

/-- Appending strings concatenates their character data. -/
theorem strData_append (a b : String) : (a ++ b).data = a.data ++ b.data := rfl

/-- The empty string is a left identity for string append. -/
theorem strNilAppend (a : String) : "" ++ a = a := by
  cases a
  rfl

/-- If `a`'s characters are a prefix of `b`'s, then `a ++ b[len(a):] = b`. -/
theorem strPrefixAppendDrop (a b : String) (h : ∃ u, a.data ++ u = b.data) :
    a ++ strDropChars b a.length = b := by
  obtain ⟨u, hu⟩ := h
  apply String.ext
  show a.data ++ (b.data.drop a.data.length) = b.data
  rw [← hu, List.drop_left]

/-- Generalized delta accumulation: if the accumulator `old` and the queued
transcripts form a prefix chain, prepending `old` to the concatenation of the
yielded deltas gives the final transcript. -/
theorem sttDeltaLoop_concat (ts : List String) :
    ∀ old : String,
      List.Chain' (fun a b : String => ∃ u, a.data ++ u = b.data) (old :: ts) →
      old ++ concatStrings (sttDeltaLoop old ts) = ts.getLastD old := by
  induction ts with
  | nil =>
      intro old _
      show old ++ "" = old
      cases old
      simp [String.instAppend, String.append]
  | cons t rest ih =>
      intro old h
      rw [List.chain'_cons] at h
      obtain ⟨hpre, hrest⟩ := h
      show old ++ (strDropChars t old.length ++ concatStrings (sttDeltaLoop t rest)) =
        List.getLastD (t :: rest) old
      rw [List.getLastD_cons]
      have hassoc :
          old ++ (strDropChars t old.length ++ concatStrings (sttDeltaLoop t rest)) =
            (old ++ strDropChars t old.length) ++ concatStrings (sttDeltaLoop t rest) := by
        apply String.ext
        show old.data ++ ((strDropChars t old.length).data ++ _) = _
        rw [← List.append_assoc]
        rfl
      rw [hassoc, strPrefixAppendDrop old t hpre]
      exact ih t hrest

/-- Each yielded delta is the character-drop of the new cumulative past the
length of the previous cumulative (with `""` before the first). -/
theorem sttDeltaLoop_eq_zipWith (ts : List String) :
    ∀ old : String,
      sttDeltaLoop old ts =
        List.zipWith (fun prev t => strDropChars t prev.length) (old :: ts) ts := by
  induction ts with
  | nil => intro old; rfl
  | cons t rest ih =>
      intro old
      show strDropChars t old.length :: sttDeltaLoop t rest = _
      rw [List.zipWith_cons_cons, ih t]

/-- C2 (confirmed): for every sequence of cumulative transcripts enqueued by
the STT receiver (cumulative: each extends the previous, i.e. the sequence is
a prefix chain), the concatenation of all deltas yielded by
`transcribe_stream` equals the final cumulative transcript, and each yielded
delta is exactly the suffix of the new cumulative transcript beyond the
previously yielded cumulative (`t[len(old):]`). -/
theorem sttDeltas_concat_and_suffix (ts : List String)
    (h : List.Chain' (fun a b : String => ∃ u, a.data ++ u = b.data) ts) :
    concatStrings (sttDeltas ts) = ts.getLastD "" ∧
      sttDeltas ts =
        List.zipWith (fun prev t => strDropChars t prev.length) ("" :: ts) ts := by
  constructor
  · have hchain : List.Chain' (fun a b : String => ∃ u, a.data ++ u = b.data) ("" :: ts) := by
      cases ts with
      | nil => simp
      | cons t rest =>
          exact List.chain'_cons.mpr ⟨⟨t.data, rfl⟩, h⟩
    have := sttDeltaLoop_concat ts "" hchain
    rw [strNilAppend] at this
    exact this
  · exact sttDeltaLoop_eq_zipWith ts ""

/-- Witness for `sttDeltas_concat_and_suffix`: for the enqueued cumulative
transcripts `"hallo"`, `"hallo welt"`, the yielded deltas concatenate to
`"hallo welt"`. -/
theorem sttDeltas_concat_witness :
    concatStrings (sttDeltas ["hallo", "hallo welt"]) = "hallo welt" := by
  have h : List.Chain' (fun a b : String => ∃ u, a.data ++ u = b.data)
      ["hallo", "hallo welt"] :=
    List.chain'_cons.mpr ⟨⟨(" welt").data, by decide⟩, List.chain'_singleton _⟩
  exact ((sttDeltas_concat_and_suffix ["hallo", "hallo welt"] h).1).trans rfl

/-- Stable descending insertion preserves length. -/
theorem insertByPriorityDesc_length (r : ServiceRecord) (l : List ServiceRecord) :
    (insertByPriorityDesc r l).length = l.length + 1 := by
  induction l with
  | nil => rfl
  | cons x xs ih =>
      rw [insertByPriorityDesc]
      by_cases h : r.priority ≥ x.priority
      · simp [h]
      · simp [h, ih]

/-- The descending stable sort preserves length. -/
theorem sortByPriorityDesc_length (l : List ServiceRecord) :
    (sortByPriorityDesc l).length = l.length := by
  induction l with
  | nil => rfl
  | cons x xs ih =>
      rw [sortByPriorityDesc, insertByPriorityDesc_length, ih]
      rfl

/-- Helper: `firstMaxPriority` is `none` exactly on the empty list. -/
theorem firstMaxPriority_eq_none_iff (l : List ServiceRecord) :
    firstMaxPriority l = none ↔ l = [] := by
  cases l with
  | nil => simp [firstMaxPriority]
  | cons x xs =>
      simp only [firstMaxPriority]
      cases firstMaxPriority xs with
      | none => simp
      | some y =>
          by_cases h : y.priority > x.priority <;> simp [h]

/-- The head of the descending stable sort is the earliest element with
maximum priority. -/
theorem sortByPriorityDesc_headQ (l : List ServiceRecord) :
    (sortByPriorityDesc l).head? = firstMaxPriority l := by
  induction l with
  | nil => rfl
  | cons x xs ih =>
      rw [sortByPriorityDesc]
      cases hs : sortByPriorityDesc xs with
      | nil =>
          have hxs : xs = [] := by
            have := sortByPriorityDesc_length xs
            rw [hs] at this
            exact List.eq_nil_of_length_eq_zero this.symm
          subst hxs
          rfl
      | cons y ys =>
          have hy : firstMaxPriority xs = some y := by
            rw [← ih, hs]
            rfl
          show (insertByPriorityDesc x (y :: ys)).head? = firstMaxPriority (x :: xs)
          rw [insertByPriorityDesc, firstMaxPriority, hy]
          by_cases h : y.priority > x.priority
          · have hnot : ¬ x.priority ≥ y.priority := by omega
            simp [h, hnot]
          · have hge : x.priority ≥ y.priority := by omega
            simp [h, hge]

/-- The element returned by `firstMaxPriority` is a member of the list, has
the maximum priority, and is preceded only by elements of strictly smaller
priority (earliest-registered maximum). -/
theorem firstMaxPriority_spec (l : List ServiceRecord) :
    ∀ r, firstMaxPriority l = some r →
      r ∈ l ∧ (∀ c ∈ l, c.priority ≤ r.priority) ∧
        ∃ pre post, l = pre ++ r :: post ∧ ∀ c ∈ pre, c.priority < r.priority := by
  induction l with
  | nil => intro r hr; simp [firstMaxPriority] at hr
  | cons x xs ih =>
      intro r hr
      rw [firstMaxPriority] at hr
      cases hfm : firstMaxPriority xs with
      | none =>
          rw [hfm] at hr
          have hxs : xs = [] := (firstMaxPriority_eq_none_iff xs).mp hfm
          subst hxs
          have hrx : r = x := by
            simpa using hr.symm
          subst hrx
          refine ⟨List.mem_cons_self .., ?_, [], [], rfl, ?_⟩
          · intro c hc
            simp at hc
            subst hc
            exact le_refl _
          · intro c hc
            simp at hc
      | some y =>
          rw [hfm] at hr
          obtain ⟨hymem, hymax, pre, post, hsplit, hpre⟩ := ih y hfm
          by_cases h : y.priority > x.priority
          · have hry : r = y := by simpa [h] using hr.symm
            subst hry
            refine ⟨List.mem_cons_of_mem x hymem, ?_, x :: pre, post, ?_, ?_⟩
            · intro c hc
              rcases List.mem_cons.mp hc with hcx | hcxs
              · subst hcx; exact le_of_lt h
              · exact hymax c hcxs
            · rw [hsplit]; rfl
            · intro c hc
              rcases List.mem_cons.mp hc with hcx | hcpre
              · subst hcx; exact h
              · exact hpre c hcpre
          · have hrx : r = x := by simpa [h] using hr.symm
            subst hrx
            have hyx : y.priority ≤ r.priority := by omega
            refine ⟨List.mem_cons_self .., ?_, [], xs, rfl, ?_⟩
            · intro c hc
              rcases List.mem_cons.mp hc with hcx | hcxs
              · subst hcx; exact le_refl _
              · exact le_trans (hymax c hcxs) hyx
            · intro c hc
              simp at hc

/-- C3 (confirmed): whenever at least one record of the requested capability
is available, `get_best_service` returns a record that is among the
candidates, has the maximum priority among them, and is the
earliest-registered among the candidates of that maximum priority (every
candidate before it has strictly smaller priority). -/
theorem getBestService_max_priority_earliest (services : List ServiceRecord)
    (serviceType : String) (hne : candidateServices services serviceType ≠ []) :
    ∃ r, getBestService services serviceType = some r ∧
      r ∈ candidateServices services serviceType ∧
      (∀ c ∈ candidateServices services serviceType, c.priority ≤ r.priority) ∧
      ∃ pre post, candidateServices services serviceType = pre ++ r :: post ∧
        ∀ c ∈ pre, c.priority < r.priority := by
  obtain ⟨r, hr⟩ : ∃ r, firstMaxPriority (candidateServices services serviceType) = some r := by
    cases hfm : firstMaxPriority (candidateServices services serviceType) with
    | none => exact absurd ((firstMaxPriority_eq_none_iff _).mp hfm) hne
    | some r => exact ⟨r, rfl⟩
  refine ⟨r, ?_, firstMaxPriority_spec _ r hr⟩
  rw [getBestService]
  have hemp : (candidateServices services serviceType).isEmpty = false := by
    cases hc : candidateServices services serviceType with
    | nil => exact absurd hc hne
    | cons a l => rfl
  simp only [hemp, Bool.false_eq_true, if_false]
  rw [sortByPriorityDesc_headQ]
  exact hr

/-- Witness for `getBestService_max_priority_earliest`: among the available
LLM records with priorities 1, 5, 5 (plus an unavailable priority-7 record
and an STT record), the earliest priority-5 record is returned. -/
theorem getBestService_witness :
    candidateServices
        [⟨"low", "LLM", 1, true, true⟩, ⟨"first-max", "LLM", 5, true, true⟩,
          ⟨"tie", "LLM", 5, true, true⟩, ⟨"other-type", "STT", 9, true, true⟩,
          ⟨"unavail", "LLM", 7, false, true⟩] "LLM" ≠ [] ∧
      ∃ r, getBestService
            [⟨"low", "LLM", 1, true, true⟩, ⟨"first-max", "LLM", 5, true, true⟩,
              ⟨"tie", "LLM", 5, true, true⟩, ⟨"other-type", "STT", 9, true, true⟩,
              ⟨"unavail", "LLM", 7, false, true⟩] "LLM" = some r ∧
          r ∈ candidateServices
              [⟨"low", "LLM", 1, true, true⟩, ⟨"first-max", "LLM", 5, true, true⟩,
                ⟨"tie", "LLM", 5, true, true⟩, ⟨"other-type", "STT", 9, true, true⟩,
                ⟨"unavail", "LLM", 7, false, true⟩] "LLM" ∧
          (∀ c ∈ candidateServices
              [⟨"low", "LLM", 1, true, true⟩, ⟨"first-max", "LLM", 5, true, true⟩,
                ⟨"tie", "LLM", 5, true, true⟩, ⟨"other-type", "STT", 9, true, true⟩,
                ⟨"unavail", "LLM", 7, false, true⟩] "LLM", c.priority ≤ r.priority) ∧
          ∃ pre post, candidateServices
                [⟨"low", "LLM", 1, true, true⟩, ⟨"first-max", "LLM", 5, true, true⟩,
                  ⟨"tie", "LLM", 5, true, true⟩, ⟨"other-type", "STT", 9, true, true⟩,
                  ⟨"unavail", "LLM", 7, false, true⟩] "LLM" = pre ++ r :: post ∧
              ∀ c ∈ pre, c.priority < r.priority :=
  ⟨by decide, getBestService_max_priority_earliest _ "LLM" (by decide)⟩

/-- Step 1, `text.replace('\n', '. ')`, does nothing on newline-free text. -/
theorem replaceNewlines_id (l : List Char) (h : '\n' ∉ l) : replaceNewlines l = l := by
  induction l with
  | nil => rfl
  | cons c rest ih =>
      rw [replaceNewlines]
      have hc : c ≠ '\n' := fun hc => h (hc ▸ List.mem_cons_self ..)
      simp only [hc, if_false]
      rw [ih (fun hm => h (List.mem_cons_of_mem c hm))]

/-- The `([?:!.,])\.` pass does nothing on period-free text. -/
theorem removeDotAfterMark_id (l : List Char) (h : '.' ∉ l) : removeDotAfterMark l = l := by
  induction l with
  | nil => rfl
  | cons a rest ih =>
      cases rest with
      | nil => rfl
      | cons b r2 =>
          rw [removeDotAfterMark]
          have hb : b ≠ '.' := by
            intro hb
            exact h (hb ▸ List.mem_cons_of_mem a (List.mem_cons_self ..))
          have hcond : (isMarkChar a && b == '.') = false := by
            simp [hb]
          rw [hcond]
          simp only [Bool.false_eq_true, if_false]
          rw [ih (fun hm => h (List.mem_cons_of_mem a hm))]

/-- The `(?<!\d)\.(?![\d\s])` pass does nothing on period-free text. -/
theorem insertSpaceAfterDot_id (l : List Char) (h : '.' ∉ l) :
    ∀ prev, insertSpaceAfterDot prev l = l := by
  induction l with
  | nil => intro prev; rfl
  | cons c rest ih =>
      intro prev
      rw [insertSpaceAfterDot]
      have hc : c ≠ '.' := fun hc => h (hc ▸ List.mem_cons_self ..)
      have hcond : (c == '.' && !prevIsDigit prev && !lookaheadBlocked rest) = false := by
        simp [hc]
      rw [hcond]
      simp only [Bool.false_eq_true, if_false]
      rw [ih (fun hm => h (List.mem_cons_of_mem c hm)) (some c)]

/-- The `\.\d+\.` pass does nothing on period-free text. -/
theorem removeEnumFragments_id (l : List Char) (h : '.' ∉ l) :
    removeEnumFragments l = l := by
  unfold removeEnumFragments
  induction l with
  | nil => rfl
  | cons c rest ih =>
      rw [enumScan]
      have hc : c ≠ '.' := fun hc => h (hc ▸ List.mem_cons_self ..)
      simp only [hc, if_false]
      rw [ih (fun hm => h (List.mem_cons_of_mem c hm))]

/-- Identity case: `clean_str_from_markdown` is the identity on strings containing neither
newlines nor periods. -/
theorem cleanStrFromMarkdown_id (s : String)
    (h : ∀ c ∈ s.data, c ≠ '\n' ∧ c ≠ '.') : cleanStrFromMarkdown s = s := by
  have hn : '\n' ∉ s.data := fun hm => (h _ hm).1 rfl
  have hd : '.' ∉ s.data := fun hm => (h _ hm).2 rfl
  unfold cleanStrFromMarkdown
  rw [replaceNewlines_id s.data hn, removeDotAfterMark_id s.data hd,
    insertSpaceAfterDot_id s.data hd none, removeEnumFragments_id s.data hd]

/-- C8 (corrected): `clean_str_from_markdown` is idempotent on inputs
containing neither newlines nor periods (on these it is the identity).  Full
idempotence fails: see `cleanStrFromMarkdown_not_idempotent`. -/
theorem cleanStrFromMarkdown_idempotent_on_plain (s : String)
    (h : ∀ c ∈ s.data, c ≠ '\n' ∧ c ≠ '.') :
    cleanStrFromMarkdown (cleanStrFromMarkdown s) = cleanStrFromMarkdown s := by
  rw [cleanStrFromMarkdown_id s h, cleanStrFromMarkdown_id s h]

/-- Witness for `cleanStrFromMarkdown_idempotent_on_plain` at
`"hallo welt"`. -/
theorem cleanStrFromMarkdown_idempotent_witness :
    cleanStrFromMarkdown (cleanStrFromMarkdown "hallo welt") =
      cleanStrFromMarkdown "hallo welt" :=
  cleanStrFromMarkdown_idempotent_on_plain "hallo welt" (by decide)

/-- C8 counterexample: applying `clean_str_from_markdown` twice differs from
applying it once on `"a.1.b"`: the first application removes the enumeration
fragment `.1.` giving `"a.b"`, and the second then inserts a space after the
period, giving `"a. b"`. -/
theorem cleanStrFromMarkdown_not_idempotent :
    cleanStrFromMarkdown (cleanStrFromMarkdown "a.1.b") ≠
      cleanStrFromMarkdown "a.1.b" := by
  decide

/-- String append is associative. -/
theorem strAppend_assoc (a b c : String) : (a ++ b) ++ c = a ++ (b ++ c) := by
  apply String.ext
  show (a.data ++ b.data) ++ c.data = a.data ++ (b.data ++ c.data)
  exact List.append_assoc ..

/-- The empty string is a right identity for string append. -/
theorem strAppend_empty (a : String) : a ++ "" = a := by
  apply String.ext
  show a.data ++ [] = a.data
  exact List.append_nil _

/-- Any sentence surviving the `sentences[:-1]` filter contains a real
character. -/
theorem processTokenizedSentences_real (sentences : List String) :
    ∀ y ∈ processTokenizedSentences sentences, containsRealChar y = true := by
  intro y hy
  exact (List.mem_filter.mp hy).2

/-- One `ask_llm` chunk iteration appends the filtered complete sentences to
the yields and the cleaned chunk to the response. -/
theorem askLlmStep_spec (tok : String → List String) (st st1 : AskLlmState)
    (chunk : String) (h : askLlmStep tok st chunk = some st1) :
    st1.yields =
        st.yields ++
          processTokenizedSentences (tok (st.buffer ++ cleanStrFromMarkdown chunk)) ∧
      st1.response = st.response ++ cleanStrFromMarkdown chunk := by
  simp only [askLlmStep] at h
  cases hlast : (tok (st.buffer ++ cleanStrFromMarkdown chunk)).getLast? with
  | none =>
      rw [hlast] at h
      simp at h
  | some lastSentence =>
      rw [hlast] at h
      have := Option.some.inj h
      subst this
      exact ⟨rfl, rfl⟩

/-- Invariant of the `ask_llm` chunk loop: every yielded sentence either was
already yielded or contains a real character, and the response grows by the
concatenation of the cleaned chunks. -/
theorem askLlmRun_spec (tok : String → List String) (chunks : List String) :
    ∀ st st', askLlmRun tok st chunks = some st' →
      (∀ y ∈ st'.yields, y ∈ st.yields ∨ containsRealChar y = true) ∧
        st'.response = st.response ++ concatStrings (chunks.map cleanStrFromMarkdown) := by
  induction chunks with
  | nil =>
      intro st st' h
      have hst : st = st' := Option.some.inj h
      subst hst
      refine ⟨fun y hy => Or.inl hy, ?_⟩
      show st.response = st.response ++ ""
      exact (strAppend_empty st.response).symm
  | cons chunk rest ih =>
      intro st st' h
      rw [askLlmRun] at h
      cases hstep : askLlmStep tok st chunk with
      | none =>
          rw [hstep] at h
          simp at h
      | some st1 =>
          rw [hstep] at h
          obtain ⟨hstepy, hstepr⟩ := askLlmStep_spec tok st st1 chunk hstep
          obtain ⟨hy, hr⟩ := ih st1 st' h
          constructor
          · intro y hmem
            rcases hy y hmem with hmem1 | hreal
            · rw [hstepy] at hmem1
              rcases List.mem_append.mp hmem1 with hold | hnew
              · exact Or.inl hold
              · exact Or.inr (processTokenizedSentences_real _ y hnew)
            · exact Or.inr hreal
          · rw [hr, hstepr]
            show (st.response ++ cleanStrFromMarkdown chunk) ++
                concatStrings (List.map cleanStrFromMarkdown rest) =
              st.response ++
                (cleanStrFromMarkdown chunk ++
                  concatStrings (List.map cleanStrFromMarkdown rest))
            exact strAppend_assoc ..

/-- C5 (corrected): with `stream_sentences=True`, the assistant entry content
equals the concatenation of all markdown-cleaned chunks, the yielded sequence
is the filtered complete sentences followed by the final buffer — yielded
unconditionally, even when empty — and every yielded complete sentence (all
but the last yield) contains at least one character of
`[A-Za-z0-9äöüÄÖÜß]`. -/
theorem askLlmStream_spec (tok : String → List String) (chunks ys : List String)
    (resp : String) (h : askLlmStream tok chunks = some (ys, resp)) :
    resp = concatStrings (chunks.map cleanStrFromMarkdown) ∧
      (∃ st', askLlmRun tok ⟨"", "", []⟩ chunks = some st' ∧
        ys = st'.yields ++ [st'.buffer] ∧ resp = st'.response) ∧
      ∀ y ∈ ys.dropLast, containsRealChar y = true := by
  unfold askLlmStream at h
  cases hrun : askLlmRun tok ⟨"", "", []⟩ chunks with
  | none =>
      rw [hrun] at h
      simp at h
  | some st' =>
      rw [hrun] at h
      simp only [Option.map_some'] at h
      have hpair := Option.some.inj h
      have hys : st'.yields ++ [st'.buffer] = ys := congrArg Prod.fst hpair
      have hresp : st'.response = resp := congrArg Prod.snd hpair
      obtain ⟨hy, hr⟩ := askLlmRun_spec tok chunks ⟨"", "", []⟩ st' hrun
      refine ⟨?_, ⟨st', rfl, hys.symm, hresp.symm⟩, ?_⟩
      · rw [← hresp, hr]
        exact strNilAppend _
      · intro y hmem
        rw [← hys, List.dropLast_concat] at hmem
        rcases hy y hmem with hnil | hreal
        · simp at hnil
        · exact hreal

/-- Witness for `askLlmStream_spec`: a single chunk `"Hallo Welt"` with a
tokenizer that returns the buffer as one sentence yields exactly the final
buffer and records the full response. -/
theorem askLlmStream_spec_witness :
    "Hallo Welt" = concatStrings (["Hallo Welt"].map cleanStrFromMarkdown) ∧
      (∃ st', askLlmRun (fun s => [s]) ⟨"", "", []⟩ ["Hallo Welt"] = some st' ∧
        ["Hallo Welt"] = st'.yields ++ [st'.buffer] ∧ "Hallo Welt" = st'.response) ∧
      ∀ y ∈ (["Hallo Welt"] : List String).dropLast, containsRealChar y = true :=
  askLlmStream_spec (fun s => [s]) ["Hallo Welt"] ["Hallo Welt"] "Hallo Welt" (by decide)

/-- C5 counterexample: on an empty chunk stream, `ask_llm` yields the empty
`sentence_buffer` anyway (`yield sentence_buffer` is unconditional), refuting
"yields the remaining buffer only if it is non-empty". -/
theorem askLlmStream_yields_empty_buffer :
    ¬ (∀ (tok : String → List String) (chunks ys : List String) (resp : String),
        askLlmStream tok chunks = some (ys, resp) → "" ∉ ys) := by
  intro hclaim
  have h := hclaim (fun s => [s]) [] [""] "" rfl
  exact h (by simp)

/-- The token loop of `is_sane_input_german` computes exactly the count and
total credit of the normalized words admitted by the code's counted-token
predicate (alphabetic, and of length ≥ 2 or one of `a i o u`). -/
theorem saneCounts_eq_filter (gw : List String) (tokens : List String) :
    saneCounts gw tokens =
      ((codeSaneWords tokens).length,
        ((codeSaneWords tokens).map (creditOf gw)).sum) := by
  induction tokens with
  | nil => rfl
  | cons tk rest ih =>
      simp only [saneCounts, codeSaneWords, List.map_cons, List.filter_cons]
      by_cases ha : isAlphaWord (normalizeToken tk) = false
      · have hcw : codeCountedWord (normalizeToken tk) = false := by
          unfold codeCountedWord
          rw [ha, Bool.false_and]
        simp only [ha, if_true, hcw, Bool.false_eq_true, if_false]
        simpa [codeSaneWords] using ih
      · have ha' : isAlphaWord (normalizeToken tk) = true := by
          cases hx : isAlphaWord (normalizeToken tk)
          · exact absurd hx ha
          · rfl
        by_cases hskip : (normalizeToken tk).length ≤ 1 ∧
            (["a", "i", "o", "u"].contains (normalizeToken tk)) = false
        · have h2 : ¬ (2 ≤ (normalizeToken tk).length) := by omega
          have hcw : codeCountedWord (normalizeToken tk) = false := by
            unfold codeCountedWord
            rw [ha', hskip.2, Bool.true_and, Bool.or_false]
            exact decide_eq_false h2
          simp only [ha, Bool.false_eq_true, if_false, hskip, if_true, hcw]
          simpa [codeSaneWords] using ih
        · have hcw : codeCountedWord (normalizeToken tk) = true := by
            unfold codeCountedWord
            rw [ha', Bool.true_and]
            rcases Decidable.not_and_iff_or_not.mp hskip with hlen | hcontains
            · have h2 : 2 ≤ (normalizeToken tk).length := by omega
              rw [decide_eq_true h2, Bool.true_or]
            · have hc : (["a", "i", "o", "u"].contains (normalizeToken tk)) = true := by
                cases hx : (["a", "i", "o", "u"].contains (normalizeToken tk))
                · exact absurd hx hcontains
                · rfl
              rw [hc, Bool.or_true]
          simp only [ha, Bool.false_eq_true, if_false, hskip, hcw, if_true]
          rw [ih]
          simp [codeSaneWords, add_comm]

/-- C6 (corrected): the sanity check equals the claim's description amended
to also credit and count the single-letter tokens `a i o u`: the credit
tiers, the credit-over-count proportion, and the threshold relaxation
(0.10 for at most 5 counted tokens) are as claimed, for every vocabulary,
token list and threshold. -/
theorem isSaneSpecAmended_eq_code (gw : List String) (tokens : List String)
    (threshold : ℚ) :
    isSaneSpecAmended gw tokens threshold = isSaneInputGerman gw tokens threshold := by
  unfold isSaneSpecAmended isSaneInputGerman
  rw [saneCounts_eq_filter]
  by_cases htok : tokens = []
  · subst htok
    simp [codeSaneWords]
  · have htok' : tokens.isEmpty = false := by
      cases tokens with
      | nil => exact absurd rfl htok
      | cons a l => rfl
    simp only [htok', Bool.false_eq_true, if_false]
    by_cases hws : codeSaneWords tokens = []
    · simp [hws]
    · have hwsb : (codeSaneWords tokens).isEmpty = false := by
        cases hcc : codeSaneWords tokens with
        | nil => exact absurd hcc hws
        | cons a l => rfl
      have hlen : ¬ ((codeSaneWords tokens).length = 0) := by
        intro h0
        exact hws (List.eq_nil_of_length_eq_zero h0)
      simp only [hwsb, Bool.false_eq_true, if_false, hlen]

/-- C6 counterexample: on the tokens `gut a a a a a a` (with the modelled
Swadesh vocabulary) the claim's rule — count only alphabetic tokens of
length ≥ 2 — accepts the input (1 counted token, proportion 1), while the
code counts the six `a` tokens too (7 counted tokens, proportion 1/7 <
0.15) and rejects it. -/
theorem isSane_single_letter_divergence :
    isSaneSpecClaim germanWordsModel
        ["gut", "a", "a", "a", "a", "a", "a"] (3/20) = true ∧
      isSaneInputGerman germanWordsModel
        ["gut", "a", "a", "a", "a", "a", "a"] (3/20) = false := by
  have hng : normalizeToken "gut" = "gut" := by decide
  have hna : normalizeToken "a" = "a" := by decide
  have hcg : creditOf germanWordsModel "gut" = 1 := by decide
  have hca : creditOf germanWordsModel "a" = 0 := by decide
  have hag : isAlphaWord "gut" = true := by decide
  have haa : isAlphaWord "a" = true := by decide
  have hcontg : (["a", "i", "o", "u"].contains ("gut" : String)) = false := by decide
  have hconta : (["a", "i", "o", "u"].contains ("a" : String)) = true := by decide
  have hlg : ("gut" : String).length = 3 := by decide
  have hla : ("a" : String).length = 1 := by decide
  constructor
  · have hws : claimSaneWords ["gut", "a", "a", "a", "a", "a", "a"] = ["gut"] := by
      decide
    unfold isSaneSpecClaim
    rw [hws]
    have hle : (1 : ℚ) / 10 ≤ (creditOf germanWordsModel "gut" + 0) / 1 := by
      rw [hcg]
      norm_num
    simpa using decide_eq_true hle
  · have hskipg : ¬ (("gut" : String).length ≤ 1 ∧
        (["a", "i", "o", "u"].contains ("gut" : String)) = false) := by decide
    have hskipa : ¬ (("a" : String).length ≤ 1 ∧
        (["a", "i", "o", "u"].contains ("a" : String)) = false) := by decide
    have hcounts : saneCounts germanWordsModel
        ["gut", "a", "a", "a", "a", "a", "a"] = (7, 1) := by
      simp only [saneCounts, hng, hna, hcg, hca, hag, haa, hskipg, hskipa,
        Bool.true_eq_false, if_false]
      norm_num
    unfold isSaneInputGerman
    rw [hcounts]
    have hnotle : ¬ ((3 : ℚ) / 20 ≤ 1 / ((7 : Nat) : ℚ)) := by norm_num
    simpa using decide_eq_false hnotle

/-- Splitting a take-then-pad of an appended pending stream at the length of
its first part. -/
theorem take_pad_compose {α : Type} (z : α) (A P1 : List α) (needed w : Nat)
    (hlen : A.length = w) (hw : w ≤ needed) :
    A ++ (P1.take (needed - w) ++ List.replicate (needed - w - P1.length) z) =
      (A ++ P1).take needed ++ List.replicate (needed - (A ++ P1).length) z := by
  subst hlen
  have hcount : needed - A.length - P1.length = needed - (A.length + P1.length) := by
    omega
  rw [hcount, List.take_append_eq_append_take, List.take_of_length_le hw,
    List.length_append, List.append_assoc]

/-- Gluing a take/drop split back together in right-associated form. -/
theorem take_drop_glue {α : Type} (n : Nat) (l rest : List α) :
    l.take n ++ (l.drop n ++ rest) = l ++ rest := by
  rw [← List.append_assoc, List.take_append_drop]

/-- Dropping past the first part of an appended pending stream. -/
theorem drop_pad_compose {α : Type} (A P1 : List α) (needed w : Nat)
    (hlen : A.length = w) (hw : w ≤ needed) :
    (A ++ P1).drop needed = P1.drop (needed - w) := by
  subst hlen
  rw [List.drop_append_eq_append_drop, List.drop_eq_nil_of_le hw, List.nil_append]

/-- The fill loop consumes the pending stream in order: with sufficient fuel
and no empty prepared item in the queue, one invocation outputs exactly the
next `needed` samples of the pending stream (zero-padded once the stream is
exhausted), the new state owes precisely the rest of the stream, and the
stop signal and queue membership are preserved. -/
theorem fillLoopF_spec (rate : Nat) (prep : Nat → List Int → List Int) :
    ∀ (fuel : Nat) (s : PlaybackState) (needed : Nat),
      needed + s.playbackQueue.length < fuel →
      (∀ it ∈ s.playbackQueue, prep it.1 it.2 ≠ []) →
      (fillLoopF rate prep fuel s needed).1 =
          (pendingStream rate prep s).take needed ++
            List.replicate (needed - (pendingStream rate prep s).length) 0 ∧
        pendingStream rate prep (fillLoopF rate prep fuel s needed).2 =
          (pendingStream rate prep s).drop needed ∧
        (fillLoopF rate prep fuel s needed).2.stopSignal = s.stopSignal ∧
        ∀ it ∈ (fillLoopF rate prep fuel s needed).2.playbackQueue,
          it ∈ s.playbackQueue := by
  intro fuel
  induction fuel with
  | zero =>
      intro s needed hfuel hprep
      omega
  | succ fuel ih =>
      intro s needed hfuel hprep
      rw [fillLoopF]
      by_cases hn : needed = 0
      · subst hn
        rw [if_pos rfl]
        refine ⟨by simp, by simp, rfl, fun it h => h⟩
      · rw [if_neg hn]
        by_cases hl : 0 < s.leftoverSilenceFrames
        · rw [if_pos hl]
          dsimp only
          set w := min s.leftoverSilenceFrames needed with hw
          set s1 : PlaybackState := { s with leftoverSilenceFrames := s.leftoverSilenceFrames - w } with hs1
          have hw1 : 1 ≤ w := by omega
          have hwn : w ≤ needed := by omega
          have hq1 : s1.playbackQueue = s.playbackQueue := rfl
          obtain ⟨ih1, ih2, ih3, ih4⟩ :=
            ih s1 (needed - w) (by rw [hq1]; omega) (by rw [hq1]; exact hprep)
          have hpend : pendingStream rate prep s =
              List.replicate w 0 ++ pendingStream rate prep s1 := by
            unfold pendingStream
            dsimp only [hs1]
            rw [← List.append_assoc, ← List.append_assoc, ← List.replicate_add]
            have : w + (s.leftoverSilenceFrames - w) = s.leftoverSilenceFrames := by
              omega
            rw [this]
          refine ⟨?_, ?_, ih3, ih4⟩
          · rw [ih1, hpend]
            exact take_pad_compose 0 (List.replicate w 0) (pendingStream rate prep s1)
              needed w (List.length_replicate ..) hwn
          · rw [ih2, hpend]
            rw [drop_pad_compose (List.replicate w 0) (pendingStream rate prep s1)
              needed w (List.length_replicate ..) hwn]
        · rw [if_neg hl]
          by_cases hb : s.currentBuffer ≠ [] ∧ s.currentPos < s.currentBuffer.length
          · rw [if_pos hb]
            dsimp only
            set avail := s.currentBuffer.length - s.currentPos with havail
            set w := min avail needed with hw
            set copied := (s.currentBuffer.drop s.currentPos).take w with hcopied
            have h0 : s.leftoverSilenceFrames = 0 := by omega
            have hw1 : 1 ≤ w := by omega
            have hwn : w ≤ needed := by omega
            have hwa : w ≤ avail := by omega
            have hlendrop : (s.currentBuffer.drop s.currentPos).length = avail := by
              rw [List.length_drop]
            have hlencopied : copied.length = w := by
              rw [hcopied, List.length_take, hlendrop]
              omega
            by_cases hx : s.currentBuffer.length ≤ s.currentPos + w
            · rw [if_pos hx]
              set s1 : PlaybackState := { s with leftoverSilenceFrames := rate, currentBuffer := [], currentPos := 0 } with hs1
              have hq1 : s1.playbackQueue = s.playbackQueue := rfl
              obtain ⟨ih1, ih2, ih3, ih4⟩ :=
                ih s1 (needed - w) (by rw [hq1]; omega) (by rw [hq1]; exact hprep)
              have hcopied_all : copied = s.currentBuffer.drop s.currentPos := by
                rw [hcopied]
                have : w = (s.currentBuffer.drop s.currentPos).length := by
                  rw [hlendrop]; omega
                rw [this, List.take_length]
              have hpend : pendingStream rate prep s =
                  copied ++ pendingStream rate prep s1 := by
                unfold pendingStream
                rw [if_pos hb]
                have hbados : ¬ (s1.currentBuffer ≠ [] ∧
                    s1.currentPos < s1.currentBuffer.length) := by
                  intro hcon
                  exact hcon.1 rfl
                rw [if_neg hbados]
                dsimp only [hs1]
                rw [h0, hcopied_all]
                simp [List.append_assoc]
              refine ⟨?_, ?_, ih3, ih4⟩
              · rw [ih1, hpend]
                exact take_pad_compose 0 copied (pendingStream rate prep s1)
                  needed w hlencopied hwn
              · rw [ih2, hpend]
                rw [drop_pad_compose copied (pendingStream rate prep s1)
                  needed w hlencopied hwn]
            · rw [if_neg hx]
              set s1 : PlaybackState := { s with currentPos := s.currentPos + w } with hs1
              have hq1 : s1.playbackQueue = s.playbackQueue := rfl
              obtain ⟨ih1, ih2, ih3, ih4⟩ :=
                ih s1 (needed - w) (by rw [hq1]; omega) (by rw [hq1]; exact hprep)
              have hb1 : s1.currentBuffer ≠ [] ∧
                  s1.currentPos < s1.currentBuffer.length := by
                refine ⟨hb.1, ?_⟩
                show s.currentPos + w < s.currentBuffer.length
                omega
              have hpend : pendingStream rate prep s =
                  copied ++ pendingStream rate prep s1 := by
                unfold pendingStream
                rw [if_pos hb, if_pos hb1]
                dsimp only [hs1]
                rw [h0, hcopied]
                have hdd : s.currentBuffer.drop (s.currentPos + w) =
                    (s.currentBuffer.drop s.currentPos).drop w := by
                  rw [List.drop_drop]
                rw [hdd]
                simp only [List.replicate_zero, List.append_nil, List.nil_append,
                  List.append_assoc]
                rw [take_drop_glue]
              refine ⟨?_, ?_, ih3, ih4⟩
              · rw [ih1, hpend]
                exact take_pad_compose 0 copied (pendingStream rate prep s1)
                  needed w hlencopied hwn
              · rw [ih2, hpend]
                rw [drop_pad_compose copied (pendingStream rate prep s1)
                  needed w hlencopied hwn]
          · rw [if_neg hb]
            have h0 : s.leftoverSilenceFrames = 0 := by omega
            cases hq : s.playbackQueue with
            | nil =>
                dsimp only
                have hp0 : pendingStream rate prep s = [] := by
                  unfold pendingStream
                  rw [if_neg hb, h0, hq]
                  simp
                refine ⟨?_, ?_, rfl, ?_⟩
                · rw [hp0]
                  simp
                · rw [hp0]
                  simp
                · rw [hq]
                  exact fun it h => h
            | cons it q =>
                rcases it with ⟨sr, arr⟩
                dsimp only
                set s1 : PlaybackState := { s with currentBuffer := prep sr arr, currentPos := 0, playbackQueue := q } with hs1
                have hprep1 : prep sr arr ≠ [] :=
                  hprep (sr, arr) (by rw [hq]; exact List.mem_cons_self ..)
                have hfuel1 : needed + s1.playbackQueue.length < fuel := by
                  have : s.playbackQueue.length = q.length + 1 := by
                    rw [hq, List.length_cons]
                  show needed + q.length < fuel
                  omega
                have hprepq : ∀ it2 ∈ s1.playbackQueue, prep it2.1 it2.2 ≠ [] := by
                  intro it2 hmem
                  exact hprep it2 (by rw [hq]; exact List.mem_cons_of_mem _ hmem)
                obtain ⟨ih1, ih2, ih3, ih4⟩ := ih s1 needed hfuel1 hprepq
                have hpend : pendingStream rate prep s = pendingStream rate prep s1 := by
                  unfold pendingStream
                  rw [if_neg hb, h0, hq]
                  have hb1 : s1.currentBuffer ≠ [] ∧
                      s1.currentPos < s1.currentBuffer.length := by
                    refine ⟨hprep1, ?_⟩
                    show 0 < (prep sr arr).length
                    exact List.length_pos.mpr hprep1
                  rw [if_pos hb1]
                  dsimp only [hs1]
                  simp [List.append_assoc]
                refine ⟨?_, ?_, ih3, ?_⟩
                · rw [ih1, hpend]
                · rw [ih2, hpend]
                · exact fun it2 hmem => List.mem_cons_of_mem _ (ih4 it2 hmem)

/-- Resampling is skipped when the item already has the engine rate. -/
theorem prepareAudio_same_rate (resampleFn : List Int → Nat → List Int)
    (rate : Nat) (samples : List Int) :
    prepareAudioForPlayback resampleFn rate rate samples = samples := by
  simp [prepareAudioForPlayback]

/-- Chaining two consecutive take-and-pad reads of the same pending
stream. -/
theorem take_pad_chain {α : Type} (z : α) (P : List α) (a b : Nat) :
    (P.take a ++ List.replicate (a - P.length) z) ++
        ((P.drop a).take b ++ List.replicate (b - (P.drop a).length) z) =
      P.take (a + b) ++ List.replicate ((a + b) - P.length) z := by
  by_cases h : a ≤ P.length
  · have hrep : a - P.length = 0 := by omega
    have hcount : b - (P.drop a).length = (a + b) - P.length := by
      rw [List.length_drop]
      omega
    rw [hrep, hcount, List.take_add, List.replicate_zero, List.append_nil,
      List.append_assoc]
  · have htake1 : P.take a = P := List.take_of_length_le (by omega)
    have htake2 : P.take (a + b) = P := List.take_of_length_le (by omega)
    have hdrop : P.drop a = [] := List.drop_eq_nil_of_le (by omega)
    rw [htake1, htake2, hdrop]
    simp only [List.take_nil, List.length_nil, Nat.sub_zero, List.nil_append,
      List.append_assoc, ← List.replicate_add]
    have : a - P.length + b = a + b - P.length := by omega
    rw [this]

/-- Iterating the playback callback: `k` invocations of `frameCount` frames
each read the first `k·frameCount` samples of the pending stream,
zero-padded past its end, provided the stop signal is clear and no queued
item prepares to an empty buffer. -/
theorem runPlaybackCallbacks_spec (rate : Nat) (prep : Nat → List Int → List Int)
    (frameCount : Nat) :
    ∀ (k : Nat) (s : PlaybackState),
      s.stopSignal = false →
      (∀ it ∈ s.playbackQueue, prep it.1 it.2 ≠ []) →
      (runPlaybackCallbacks rate prep frameCount s k).1 =
        (pendingStream rate prep s).take (k * frameCount) ++
          List.replicate (k * frameCount - (pendingStream rate prep s).length) 0 := by
  intro k
  induction k with
  | zero =>
      intro s hstop hprep
      simp [runPlaybackCallbacks]
  | succ k ihk =>
      intro s hstop hprep
      rw [runPlaybackCallbacks]
      dsimp only
      have hcb : playbackCallback rate prep s frameCount =
          fillLoopF rate prep (frameCount + s.playbackQueue.length + 1) s frameCount := by
        unfold playbackCallback
        rw [hstop]
        simp [fillLoop]
      obtain ⟨h1, h2, h3, h4⟩ := fillLoopF_spec rate prep
        (frameCount + s.playbackQueue.length + 1) s frameCount (by omega) hprep
      rw [hcb, h1]
      have hstop2 : (fillLoopF rate prep (frameCount + s.playbackQueue.length + 1) s
          frameCount).2.stopSignal = false := by
        rw [h3, hstop]
      have hprep2 : ∀ it ∈ (fillLoopF rate prep
          (frameCount + s.playbackQueue.length + 1) s frameCount).2.playbackQueue,
          prep it.1 it.2 ≠ [] := fun it hmem => hprep it (h4 it hmem)
      rw [ihk _ hstop2 hprep2, h2]
      rw [take_pad_chain]
      have : frameCount + k * frameCount = (k + 1) * frameCount := by ring
      rw [this]

/-- C4 (corrected): when all enqueued items at the engine rate are
non-empty and enough callback invocations are run to drain them, the
concatenated callback output is exactly the items' samples in FIFO
insertion order, each item followed by exactly one second (`rate` frames)
of silence, followed only by trailing zero padding — so no sample is
dropped, duplicated or reordered.  (A zero-length item is dequeued without
its silence gap; see `playbackCallback_empty_item_breaks_silence`.) -/
theorem playbackCallback_fifo_and_silence (rate : Nat)
    (resampleFn : List Int → Nat → List Int) (items : List (List Int))
    (frameCount k : Nat) (hne : ∀ l ∈ items, l ≠ [])
    (htot : (items.map (fun l => l.length + rate)).sum ≤ k * frameCount) :
    (runPlaybackCallbacks rate
        (fun sr arr => prepareAudioForPlayback resampleFn sr rate arr) frameCount
        ⟨false, 0, [], 0, items.map (fun l => (rate, l))⟩ k).1 =
      (items.map (fun l => l ++ List.replicate rate 0)).flatten ++
        List.replicate
          (k * frameCount - (items.map (fun l => l.length + rate)).sum) 0 := by
  have hpend0 : pendingStream rate
      (fun sr arr => prepareAudioForPlayback resampleFn sr rate arr)
      ⟨false, 0, [], 0, items.map (fun l => (rate, l))⟩ =
      (items.map (fun l => l ++ List.replicate rate 0)).flatten := by
    unfold pendingStream
    simp only [List.map_map, List.replicate_zero, List.nil_append, List.length_nil,
      Nat.lt_irrefl, and_false, ne_eq, not_true_eq_false, if_neg, if_false]
    congr 1
    apply List.map_congr_left
    intro l hl
    simp [Function.comp, prepareAudioForPlayback]
  have hlen : ((items.map (fun l => l ++ List.replicate rate 0)).flatten).length =
      (items.map (fun l => l.length + rate)).sum := by
    rw [List.length_flatten, List.map_map]
    have hfun : (List.length ∘ fun l : List Int => l ++ List.replicate rate 0) =
        fun l : List Int => l.length + rate := by
      funext l
      simp [Function.comp]
    rw [hfun]
  have hprep0 : ∀ it ∈ (⟨false, 0, [], 0, items.map (fun l => (rate, l))⟩ :
      PlaybackState).playbackQueue,
      (fun sr arr => prepareAudioForPlayback resampleFn sr rate arr) it.1 it.2 ≠ [] := by
    intro it hmem
    simp only [List.mem_map] at hmem
    obtain ⟨l, hl, heq⟩ := hmem
    subst heq
    simpa [prepareAudioForPlayback] using hne l hl
  rw [runPlaybackCallbacks_spec rate _ frameCount k _ rfl hprep0, hpend0]
  rw [List.take_of_length_le (by rw [hlen]; exact htot), hlen]

/-- Witness for `playbackCallback_fifo_and_silence`: two items `[1]` and
`[2, 3]` at engine rate 2, drained by two callbacks of 5 frames each,
produce the items in order with exactly 2 frames of silence after each, then
trailing padding. -/
theorem playbackCallback_fifo_witness :
    (∀ l ∈ [[1], [2, 3]], l ≠ ([] : List Int)) ∧
      (([[1], [2, 3]] : List (List Int)).map (fun l => l.length + 2)).sum ≤ 2 * 5 ∧
      (runPlaybackCallbacks 2
          (fun sr arr =>
            prepareAudioForPlayback (fun _ n => List.replicate n 0) sr 2 arr) 5
          ⟨false, 0, [], 0,
            ([[1], [2, 3]] : List (List Int)).map (fun l => (2, l))⟩ 2).1 =
        (([[1], [2, 3]] : List (List Int)).map
            (fun l => l ++ List.replicate 2 0)).flatten ++
          List.replicate
            (2 * 5 - (([[1], [2, 3]] : List (List Int)).map
              (fun l => l.length + 2)).sum) 0 :=
  ⟨by decide, by decide,
    playbackCallback_fifo_and_silence 2 (fun _ n => List.replicate n 0)
      [[1], [2, 3]] 5 2 (by decide) (by decide)⟩

/-- C4 counterexample: with a zero-length item between two others, the
callback dequeues the empty item without inserting its one second of
silence, so the emitted stream `[1,0,2,0,0,0,0]` differs from the claimed
`[1,0,0,2,0,0,0]` (rate 1, one 7-frame callback). -/
theorem playbackCallback_empty_item_breaks_silence :
    (runPlaybackCallbacks 1
        (fun sr arr =>
          prepareAudioForPlayback (fun _ n => List.replicate n 0) sr 1 arr) 7
        ⟨false, 0, [], 0, [(1, [1]), (1, []), (1, [2])]⟩ 1).1 ≠
      (([[1], [], [2]] : List (List Int)).map
          (fun l => l ++ List.replicate 1 0)).flatten ++
        List.replicate
          (1 * 7 - (([[1], [], [2]] : List (List Int)).map
            (fun l => l.length + 1)).sum) 0 := by
  decide

/-- C7 (corrected): when the source rate differs from the engine rate, the
resampled buffer has `int(len · (engine_rate / source_rate))` samples —
truncation (in exact arithmetic, the floor), not rounding to nearest.  The
scipy resampler returns exactly the requested number of samples, which is
the hypothesis on `resampleFn`. -/
theorem prepareAudio_resampled_length (resampleFn : List Int → Nat → List Int)
    (hres : ∀ (x : List Int) (n : Nat), (resampleFn x n).length = n)
    (inRate outRate : Nat) (samples : List Int) (hdiff : inRate ≠ outRate) :
    (prepareAudioForPlayback resampleFn inRate outRate samples).length =
      samples.length * outRate / inRate := by
  unfold prepareAudioForPlayback
  rw [if_pos hdiff]
  exact hres ..

/-- Witness for `prepareAudio_resampled_length`: 4 samples at 24000 Hz
resampled to 16000 Hz give `4·16000/24000 = 2` samples. -/
theorem prepareAudio_resampled_length_witness :
    (∀ (x : List Int) (n : Nat), (List.replicate n (0 : Int)).length = n) ∧
      (24000 : Nat) ≠ 16000 ∧
      (prepareAudioForPlayback (fun _ n => List.replicate n 0) 24000 16000
          [5, 6, 7, 8]).length = ([5, 6, 7, 8] : List Int).length * 16000 / 24000 :=
  ⟨fun _ n => List.length_replicate .., by decide,
    prepareAudio_resampled_length (fun _ n => List.replicate n 0)
      (fun _ n => List.length_replicate ..) 24000 16000 [5, 6, 7, 8] (by decide)⟩

/-- C7 counterexample: for 4 source samples at 24000 Hz and engine rate
16000 Hz, the claimed `round(4·16000/24000) = round(8/3)` is 3, but the code
computes `int(4·(16000/24000)) = 2`. -/
theorem prepareAudio_round_counterexample :
    specRoundLength 4 16000 24000 = 3 ∧
      ((prepareAudioForPlayback (fun _ n => List.replicate n 0) 24000 16000
          [5, 6, 7, 8]).length : Int) = 2 ∧
      specRoundLength 4 16000 24000 ≠
        ((prepareAudioForPlayback (fun _ n => List.replicate n 0) 24000 16000
            [5, 6, 7, 8]).length : Int) := by
  refine ⟨?_, by decide, ?_⟩
  · unfold specRoundLength
    norm_num [round_eq]
  · intro hcon
    rw [show ((prepareAudioForPlayback (fun _ n => List.replicate n 0) 24000 16000
        [5, 6, 7, 8]).length : Int) = 2 by decide] at hcon
    rw [show specRoundLength 4 16000 24000 = 3 by
      unfold specRoundLength; norm_num [round_eq]] at hcon
    exact absurd hcon (by decide)
